import Mathlib

/-!
Ordered configuration lookup (package `configuration`).

A shallow embedding of `configuration_manager.go` and the properties of its
lookup chain.

Modelling conventions.

* A Go `error` is an `Option String`: `none` is `nil`, `some msg` is a non-nil
  error whose message is `msg` (`fmt.Errorf` with a `%s` verb is string
  concatenation).
* A Go `map[string]string` is the list of its entries; the comma-ok index
  expression `mp[key]` is `GoMap.index`.
* Getters are Go closures, which may read and write state. The state is a
  `World`: the process environment plus a `heap` of any type, standing for
  whatever else a custom getter closes over. A getter takes the key and the
  world it is called in and returns its `(string, error)` pair together with the
  world it leaves behind.
-/

namespace configuration

/-- Go `error`: `none` is `nil`, `some msg` an error with message `msg`. -/
abbrev GoError := Option String

/-- Go `map[string]string`, given by its entries. -/
abbrev GoMap := List (String × String)

/-- The comma-ok index expression `val, exists := mp[key]`: the stored value and
`true`, or the zero value `""` and `false` when the key is absent. -/
def GoMap.index (mp : GoMap) (key : String) : String × Bool :=
  match mp.lookup key with
  | some val => (val, true)
  | none => ("", false)

/-- The state a getter runs in: the process environment, as the variables the
process was given by name, and any other mutable state reachable from custom
getters. -/
structure World (α : Type) where
  environ : GoMap
  heap : α

/-- `os.LookupEnv(key)`: the value of the variable and whether it is set. The
lookup of the empty name never succeeds: the runtime answers `len(key) == 0` with
`("", false)` before it consults the environment. -/
def LookupEnv {α : Type} (w : World α) (key : String) : String × Bool :=
  if key.length = 0 then ("", false) else w.environ.index key

/-- `type configurationValueGetter func(key string) (string, error)`. -/
abbrev configurationValueGetter (α : Type) :=
  String → World α → (String × GoError) × World α

/-- `type ConfigurationManager struct`. -/
structure ConfigurationManager (α : Type) where
  configurationValueGetter : List (configurationValueGetter α)

/-- `func New(opts ...configurationValueGetter) *ConfigurationManager`: starts from
the empty slice and appends every option in turn. -/
def New {α : Type} (opts : List (configurationValueGetter α)) : ConfigurationManager α :=
  opts.foldl
    (fun configManager getter =>
      { configurationValueGetter := configManager.configurationValueGetter ++ [getter] })
    { configurationValueGetter := [] }

/-- The `for _, valueGetter := range m.configurationValueGetter` loop of
`GetRequiredValue` together with the `return` that follows it. -/
def rangeValueGetters {α : Type} :
    List (configurationValueGetter α) → String → World α → (String × GoError) × World α
  | [], key, w => (("", some ("key " ++ key ++ " not found")), w)
  | valueGetter :: rest, key, w =>
    match valueGetter key w with
    | ((val, none), w') => ((val, none), w')
    | ((_, some _), w') => rangeValueGetters rest key w'

/-- `func (m *ConfigurationManager) GetRequiredValue(key string) (string, error)`. -/
def GetRequiredValue {α : Type} (m : ConfigurationManager α) (key : String) (w : World α) :
    (String × GoError) × World α :=
  if m.configurationValueGetter.length = 0 then
    (("", some "there is no configuration getter configured"), w)
  else
    rangeValueGetters m.configurationValueGetter key w

/-- `func (m *ConfigurationManager) GetOptionalValue(key string, defaultValue string) string`. -/
def GetOptionalValue {α : Type} (m : ConfigurationManager α) (key : String)
    (defaultValue : String) (w : World α) : String × World α :=
  match GetRequiredValue m key w with
  | ((_, some _), w') => (defaultValue, w')
  | ((val, none), w') => (val, w')

/-- `func WithCustomGetter(fnGetter configurationValueGetter) configurationValueGetter`. -/
def WithCustomGetter {α : Type} (fnGetter : configurationValueGetter α) :
    configurationValueGetter α :=
  fnGetter

/-- `func WithInMemoryGetter(mp map[string]string) configurationValueGetter`. -/
def WithInMemoryGetter {α : Type} (mp : GoMap) : configurationValueGetter α :=
  fun key w =>
    match mp.index key with
    | (_, false) => (("", some ("value: " ++ key ++ " does not exists in the map")), w)
    | (val, true) => ((val, none), w)

/-- `func WithEnvironmentVariables() configurationValueGetter`: the environment is
read from the world of the call, not from the world of construction. -/
def WithEnvironmentVariables {α : Type} : configurationValueGetter α :=
  fun key w =>
    match LookupEnv w key with
    | (_, false) =>
      (("", some ("value: " ++ key ++ " does not exsits in environment variables")), w)
    | (val, true) => ((val, none), w)

/-- A getter that leaves the world as it found it. -/
def ReadOnly {α : Type} (p : configurationValueGetter α) : Prop :=
  ∀ key w, (p key w).2 = w

/-- Instrumentation: getter `p`, which in addition appends its position `i` to a
call log kept next to the heap. -/
def recorded {α : Type} (i : Nat) (p : configurationValueGetter α) :
    configurationValueGetter (α × List Nat) :=
  fun key w =>
    let r := p key { environ := w.environ, heap := w.heap.1 }
    (r.1, { environ := r.2.environ, heap := (r.2.heap, w.heap.2 ++ [i]) })

/-- Instruments every getter of a sequence with its position, counting from `i`. -/
def recordedFrom {α : Type} :
    Nat → List (configurationValueGetter α) → List (configurationValueGetter (α × List Nat))
  | _, [] => []
  | i, p :: ps => recorded i p :: recordedFrom (i + 1) ps

/-! ## Auxiliary facts -/

theorem New_foldl {α : Type} (opts acc : List (configurationValueGetter α)) :
    (opts.foldl
      (fun (configManager : ConfigurationManager α) getter =>
        { configurationValueGetter := configManager.configurationValueGetter ++ [getter] })
      { configurationValueGetter := acc }).configurationValueGetter = acc ++ opts := by
  induction opts generalizing acc with
  | nil => simp
  | cons g rest ih => simp [List.foldl_cons, ih]

theorem New_getters {α : Type} (opts : List (configurationValueGetter α)) :
    (New opts).configurationValueGetter = opts := by
  simpa [New] using New_foldl opts []

theorem GetRequiredValue_New_cons {α : Type} (p : configurationValueGetter α)
    (ps : List (configurationValueGetter α)) (key : String) (w : World α) :
    GetRequiredValue (New (p :: ps)) key w = rangeValueGetters (p :: ps) key w := by
  simp [GetRequiredValue, New_getters]

theorem rangeValueGetters_of_success {α : Type} (p : configurationValueGetter α)
    (ps : List (configurationValueGetter α)) (key : String) (w : World α)
    (h : (p key w).1.2 = none) :
    rangeValueGetters (p :: ps) key w = (((p key w).1.1, none), (p key w).2) := by
  rcases hp : p key w with ⟨⟨val, err⟩, w'⟩
  rw [hp] at h
  simp only at h
  subst h
  simp [rangeValueGetters, hp]

theorem rangeValueGetters_of_failure {α : Type} (p : configurationValueGetter α)
    (ps : List (configurationValueGetter α)) (key : String) (w : World α)
    (h : (p key w).1.2 ≠ none) :
    rangeValueGetters (p :: ps) key w = rangeValueGetters ps key (p key w).2 := by
  rcases hp : p key w with ⟨⟨val, err⟩, w'⟩
  rw [hp] at h
  cases err with
  | none => exact absurd rfl h
  | some e => simp [rangeValueGetters, hp]

/-- The loop over read-only getters returns what the first succeeding getter
returns, whatever follows it. -/
theorem rangeValueGetters_append_success {α : Type}
    (pre : List (configurationValueGetter α)) (p : configurationValueGetter α)
    (post : List (configurationValueGetter α)) (key : String) (w : World α)
    (hro : ∀ q ∈ pre, ReadOnly q) (hfail : ∀ q ∈ pre, (q key w).1.2 ≠ none)
    (hsucc : (p key w).1.2 = none) :
    rangeValueGetters (pre ++ p :: post) key w = (((p key w).1.1, none), (p key w).2) := by
  induction pre with
  | nil => simpa using rangeValueGetters_of_success p post key w hsucc
  | cons q rest ih =>
    have hq : (q key w).1.2 ≠ none := hfail q (List.mem_cons_self _ _)
    have hw : (q key w).2 = w := hro q (List.mem_cons_self _ _) key w
    rw [List.cons_append, rangeValueGetters_of_failure q _ key w hq, hw]
    exact ih (fun r hr => hro r (List.mem_cons_of_mem _ hr))
      (fun r hr => hfail r (List.mem_cons_of_mem _ hr))

/-- The loop over read-only getters that all fail ends in the key-not-found error. -/
theorem rangeValueGetters_all_fail {α : Type}
    (ps : List (configurationValueGetter α)) (key : String) (w : World α)
    (hro : ∀ q ∈ ps, ReadOnly q) (hfail : ∀ q ∈ ps, (q key w).1.2 ≠ none) :
    rangeValueGetters ps key w = (("", some ("key " ++ key ++ " not found")), w) := by
  induction ps with
  | nil => rfl
  | cons q rest ih =>
    have hq : (q key w).1.2 ≠ none := hfail q (List.mem_cons_self _ _)
    have hw : (q key w).2 = w := hro q (List.mem_cons_self _ _) key w
    rw [rangeValueGetters_of_failure q _ key w hq, hw]
    exact ih (fun r hr => hro r (List.mem_cons_of_mem _ hr))
      (fun r hr => hfail r (List.mem_cons_of_mem _ hr))

/-- A sequence with a succeeding getter has a lowest position at which one succeeds. -/
theorem exists_lowest_success {α : Type}
    (ps : List (configurationValueGetter α)) (key : String) (w : World α)
    (h : ∃ p ∈ ps, (p key w).1.2 = none) :
    ∃ i, ∃ hi : i < ps.length, (ps.get ⟨i, hi⟩ key w).1.2 = none ∧
      ∀ j, ∀ hj : j < ps.length, j < i → (ps.get ⟨j, hj⟩ key w).1.2 ≠ none := by
  classical
  have hex : ∃ i, ∃ hi : i < ps.length, (ps.get ⟨i, hi⟩ key w).1.2 = none := by
    obtain ⟨p, hp, hs⟩ := h
    obtain ⟨n, hn⟩ := List.get_of_mem hp
    exact ⟨n.1, n.2, by rw [hn]; exact hs⟩
  refine ⟨Nat.find hex, (Nat.find_spec hex).1, (Nat.find_spec hex).2, ?_⟩
  intro j hj hlt hnone
  exact Nat.find_min hex hlt ⟨hj, hnone⟩

/-- Splitting a sequence at a position. -/
theorem split_at_index {α : Type} (ps : List (configurationValueGetter α)) (i : Nat)
    (hi : i < ps.length) :
    ps = ps.take i ++ ps.get ⟨i, hi⟩ :: ps.drop (i + 1) := by
  have h := List.take_append_drop i ps
  rw [List.drop_eq_getElem_cons hi] at h
  simp [h]

/-- The no-getter message is never a key-not-found message. -/
theorem keyNotFound_ne_noGetter (key : String) :
    "key " ++ key ++ " not found" ≠ "there is no configuration getter configured" := by
  intro h
  have hd := congrArg String.data h
  simp only [String.data_append] at hd
  have h0 := congrArg List.head? hd
  simp at h0

theorem WithInMemoryGetter_readOnly {α : Type} (mp : GoMap) :
    ReadOnly (WithInMemoryGetter mp : configurationValueGetter α) := by
  intro key w
  unfold WithInMemoryGetter
  split <;> rfl

theorem WithEnvironmentVariables_readOnly {α : Type} :
    ReadOnly (WithEnvironmentVariables : configurationValueGetter α) := by
  intro key w
  unfold WithEnvironmentVariables
  split <;> rfl

/-- Presence of a key among the entries decides the comma-ok index expression. -/
theorem GoMap.index_of_mem (mp : GoMap) (key : String) (h : key ∈ mp.map Prod.fst) :
    ∃ val, mp.lookup key = some val ∧ mp.index key = (val, true) := by
  cases hl : mp.lookup key with
  | none =>
    rw [List.lookup_eq_none_iff] at hl
    obtain ⟨q, hq, hk⟩ := List.mem_map.mp h
    have := hl q hq
    simp [hk] at this
  | some val => exact ⟨val, rfl, by simp [GoMap.index, hl]⟩

theorem GoMap.index_of_not_mem (mp : GoMap) (key : String) (h : key ∉ mp.map Prod.fst) :
    mp.index key = ("", false) := by
  have hl : mp.lookup key = none := by
    rw [List.lookup_eq_none_iff]
    intro q hq
    have hne : key ≠ q.1 := fun he => h (List.mem_map.mpr ⟨q, hq, he.symm⟩)
    simpa using hne
  simp [GoMap.index, hl]

/-- The instrumented loop: when the getters before `p` only read the world and
fail, and `p` succeeds, the log gains exactly the positions up to that of `p`. -/
theorem rangeValueGetters_recordedFrom_success {α : Type}
    (pre : List (configurationValueGetter α)) (p : configurationValueGetter α)
    (post : List (configurationValueGetter α)) (key : String) (w : World α)
    (n : Nat) (log : List Nat)
    (hro : ∀ q ∈ pre, ReadOnly q) (hfail : ∀ q ∈ pre, (q key w).1.2 ≠ none)
    (hsucc : (p key w).1.2 = none) :
    (rangeValueGetters (recordedFrom n (pre ++ p :: post)) key
        { environ := w.environ, heap := (w.heap, log) }).1 = ((p key w).1.1, none) ∧
    (rangeValueGetters (recordedFrom n (pre ++ p :: post)) key
        { environ := w.environ, heap := (w.heap, log) }).2.heap.2
      = log ++ List.range' n (pre.length + 1) := by
  induction pre generalizing n log with
  | nil =>
    have hs : (recorded n p key { environ := w.environ, heap := (w.heap, log) }).1.2 = none :=
      hsucc
    simp only [List.nil_append, recordedFrom, List.length_nil, Nat.zero_add]
    rw [rangeValueGetters_of_success _ _ key _ hs]
    exact ⟨rfl, by simp [recorded]⟩
  | cons q rest ih =>
    have hq : (q key w).1.2 ≠ none := hfail q (List.mem_cons_self _ _)
    have hw : (q key w).2 = w := hro q (List.mem_cons_self _ _) key w
    have hf : (recorded n q key { environ := w.environ, heap := (w.heap, log) }).1.2 ≠ none :=
      hq
    have hstep : (recorded n q key { environ := w.environ, heap := (w.heap, log) }).2
        = { environ := w.environ, heap := (w.heap, log ++ [n]) } := by
      show ({ environ := (q key w).2.environ, heap := ((q key w).2.heap, log ++ [n]) }
        : World (α × List Nat)) = _
      rw [hw]
    simp only [List.cons_append, recordedFrom, List.length_cons]
    rw [rangeValueGetters_of_failure _ _ key _ hf, hstep]
    have h := ih (n + 1) (log ++ [n]) (fun r hr => hro r (List.mem_cons_of_mem _ hr))
      (fun r hr => hfail r (List.mem_cons_of_mem _ hr))
    refine ⟨h.1, h.2.trans ?_⟩
    rw [List.append_assoc]
    rfl

theorem recordedFrom_length {α : Type} (n : Nat) (ps : List (configurationValueGetter α)) :
    (recordedFrom n ps).length = ps.length := by
  induction ps generalizing n with
  | nil => rfl
  | cons p rest ih => simp [recordedFrom, ih]

/-- The loop ends either with the value of a getter and a nil error, or with the
empty value and the key-not-found error of the key. -/
theorem rangeValueGetters_cases {α : Type}
    (ps : List (configurationValueGetter α)) (key : String) (w : World α) :
    (rangeValueGetters ps key w).1.2 = none ∨
    (rangeValueGetters ps key w).1 = ("", some ("key " ++ key ++ " not found")) := by
  induction ps generalizing w with
  | nil => exact Or.inr rfl
  | cons p rest ih =>
    by_cases h : (p key w).1.2 = none
    · rw [rangeValueGetters_of_success p rest key w h]
      exact Or.inl rfl
    · rw [rangeValueGetters_of_failure p rest key w h]
      exact ih (p key w).2

/-- The three outcomes of `GetRequiredValue`: a nil error, the no-getter error of
a manager without getters, the key-not-found error of a manager with getters. -/
theorem GetRequiredValue_cases {α : Type} (m : ConfigurationManager α) (key : String)
    (w : World α) :
    (GetRequiredValue m key w).1.2 = none ∨
    (m.configurationValueGetter.length = 0 ∧
      (GetRequiredValue m key w).1 = ("", some "there is no configuration getter configured")) ∨
    (m.configurationValueGetter.length ≠ 0 ∧
      (GetRequiredValue m key w).1 = ("", some ("key " ++ key ++ " not found"))) := by
  by_cases h0 : m.configurationValueGetter.length = 0
  · exact Or.inr (Or.inl ⟨h0, by simp [GetRequiredValue, h0]⟩)
  · have hrun : GetRequiredValue m key w = rangeValueGetters m.configurationValueGetter key w := by
      simp [GetRequiredValue, h0]
    rw [hrun]
    rcases rangeValueGetters_cases m.configurationValueGetter key w with h | h
    · exact Or.inl h
    · exact Or.inr (Or.inr ⟨h0, h⟩)

/-- The loop over read-only getters leaves the world as it found it. -/
theorem rangeValueGetters_readOnly {α : Type}
    (ps : List (configurationValueGetter α)) (key : String) (w : World α)
    (hro : ∀ q ∈ ps, ReadOnly q) :
    (rangeValueGetters ps key w).2 = w := by
  induction ps with
  | nil => rfl
  | cons p rest ih =>
    have hw : (p key w).2 = w := hro p (List.mem_cons_self _ _) key w
    by_cases h : (p key w).1.2 = none
    · rw [rangeValueGetters_of_success p rest key w h]
      exact hw
    · rw [rangeValueGetters_of_failure p rest key w h, hw]
      exact ih (fun r hr => hro r (List.mem_cons_of_mem _ hr))

/-- A manager of read-only getters leaves the world as it found it. -/
theorem GetRequiredValue_readOnly {α : Type} (m : ConfigurationManager α) (key : String)
    (w : World α) (hro : ∀ q ∈ m.configurationValueGetter, ReadOnly q) :
    (GetRequiredValue m key w).2 = w := by
  unfold GetRequiredValue
  split
  · rfl
  · exact rangeValueGetters_readOnly _ key w hro

theorem GetOptionalValue_world {α : Type} (m : ConfigurationManager α) (key : String)
    (defaultValue : String) (w : World α) :
    (GetOptionalValue m key defaultValue w).2 = (GetRequiredValue m key w).2 := by
  unfold GetOptionalValue
  rcases h : GetRequiredValue m key w with ⟨⟨val, err⟩, w'⟩
  cases err <;> rfl

/-- The getters before position `i` are those of the prefix of length `i`. -/
theorem take_fail_of_lowest {α : Type}
    (ps : List (configurationValueGetter α)) (key : String) (w : World α) (i : Nat)
    (hmin : ∀ j, ∀ hj : j < ps.length, j < i → (ps.get ⟨j, hj⟩ key w).1.2 ≠ none) :
    ∀ q ∈ ps.take i, (q key w).1.2 ≠ none := by
  intro q hq
  obtain ⟨n, hn⟩ := List.get_of_mem hq
  have hbound := n.2
  simp only [List.length_take] at hbound
  have hnlt : n.1 < i := by omega
  have hnlen : n.1 < ps.length := by omega
  have hget : (ps.take i).get n = ps.get ⟨n.1, hnlen⟩ := by
    simp [List.getElem_take]
  rw [← hn, hget]
  exact hmin n.1 hnlen hnlt

/-- A manager of read-only getters returns the value of the getter at the lowest
succeeding position. -/
theorem GetRequiredValue_of_lowest {α : Type}
    (ps : List (configurationValueGetter α)) (key : String) (w : World α)
    (i : Nat) (hi : i < ps.length)
    (hro : ∀ p ∈ ps, ReadOnly p)
    (hsucc : (ps.get ⟨i, hi⟩ key w).1.2 = none)
    (hmin : ∀ j, ∀ hj : j < ps.length, j < i → (ps.get ⟨j, hj⟩ key w).1.2 ≠ none) :
    GetRequiredValue (New ps) key w = (((ps.get ⟨i, hi⟩ key w).1.1, none), w) := by
  have hne : ps.length ≠ 0 := by omega
  have hloop := rangeValueGetters_append_success (ps.take i) (ps.get ⟨i, hi⟩)
    (ps.drop (i + 1)) key w (fun q hq => hro q (List.mem_of_mem_take hq))
    (take_fail_of_lowest ps key w i hmin) hsucc
  rw [← split_at_index ps i hi] at hloop
  have hw : (ps.get ⟨i, hi⟩ key w).2 = w := hro _ (List.get_mem ps i hi) key w
  simp only [GetRequiredValue, New_getters, hne, if_false]
  rw [hloop, hw]

theorem length_eq_zero_iff_empty (key : String) : key.length = 0 ↔ key = "" := by
  constructor
  · intro h
    apply String.ext
    have hd : key.data.length = 0 := h
    simpa using List.length_eq_zero.mp hd
  · intro h
    subst h
    rfl

/-- Lookup of a non-empty name is the lookup in the environment. -/
theorem LookupEnv_of_ne_empty {α : Type} (w : World α) (key : String) (hkey : key ≠ "") :
    LookupEnv w key = w.environ.index key := by
  have h : key.length ≠ 0 := fun h0 => hkey ((length_eq_zero_iff_empty key).mp h0)
  simp [LookupEnv, h]

/-- Lookup of the empty name fails in every environment. -/
theorem LookupEnv_empty {α : Type} (w : World α) : LookupEnv w "" = ("", false) := by
  simp [LookupEnv]

/-! ## Precedence of `GetRequiredValue` -/

/-- C1: for a manager built by `New` from getters that only read the world, if
some getter succeeds on the key (returns a nil error), there is a lowest position
`i` at which a getter succeeds, and `GetRequiredValue` returns the value of that
getter with a nil error; in particular, when the first getter fails and the
second succeeds, the value of the second is returned. -/
theorem GetRequiredValue_lowest_index_wins {α : Type}
    (ps : List (configurationValueGetter α)) (key : String) (w : World α)
    (hro : ∀ p ∈ ps, ReadOnly p)
    (hsome : ∃ p ∈ ps, (p key w).1.2 = none) :
    1 ≤ ps.length ∧
    (∃ i, ∃ hi : i < ps.length,
      (ps.get ⟨i, hi⟩ key w).1.2 = none ∧
      (∀ j, ∀ hj : j < ps.length, j < i → (ps.get ⟨j, hj⟩ key w).1.2 ≠ none) ∧
      GetRequiredValue (New ps) key w = (((ps.get ⟨i, hi⟩ key w).1.1, none), w)) ∧
    (∀ p1 p2 rest, ps = p1 :: p2 :: rest → (p1 key w).1.2 ≠ none → (p2 key w).1.2 = none →
      GetRequiredValue (New ps) key w = (((p2 key w).1.1, none), w)) := by
  have hlowest : ∀ i, ∀ hi : i < ps.length, (ps.get ⟨i, hi⟩ key w).1.2 = none →
      (∀ j, ∀ hj : j < ps.length, j < i → (ps.get ⟨j, hj⟩ key w).1.2 ≠ none) →
      GetRequiredValue (New ps) key w = (((ps.get ⟨i, hi⟩ key w).1.1, none), w) := by
    intro i hi hs hmin
    have hne : ps.length ≠ 0 := by omega
    have hsplit := split_at_index ps i hi
    have hpre_ro : ∀ q ∈ ps.take i, ReadOnly q := fun q hq => hro q (List.mem_of_mem_take hq)
    have hpre_fail : ∀ q ∈ ps.take i, (q key w).1.2 ≠ none := by
      intro q hq
      obtain ⟨n, hn⟩ := List.get_of_mem hq
      have hnlt : n.1 < i := by
        have := n.2
        simp only [List.length_take] at this
        omega
      have hnlen : n.1 < ps.length := by omega
      have hget : (ps.take i).get n = ps.get ⟨n.1, hnlen⟩ := by
        simp [List.getElem_take]
      rw [← hn, hget]
      exact hmin n.1 hnlen hnlt
    have hloop := rangeValueGetters_append_success (ps.take i) (ps.get ⟨i, hi⟩)
      (ps.drop (i + 1)) key w hpre_ro hpre_fail hs
    rw [← hsplit] at hloop
    have hw : (ps.get ⟨i, hi⟩ key w).2 = w := hro _ (List.get_mem ps i hi) key w
    simp only [GetRequiredValue, New_getters, hne, if_false]
    rw [hloop, hw]
  refine ⟨?_, ?_, ?_⟩
  · obtain ⟨p, hp, _⟩ := hsome
    exact List.length_pos_of_mem hp
  · obtain ⟨i, hi, hs, hmin⟩ := exists_lowest_success ps key w hsome
    exact ⟨i, hi, hs, hmin, hlowest i hi hs hmin⟩
  · intro p1 p2 rest hps hf hs
    subst hps
    have h := hlowest 1 (by simp) (by simpa using hs) (by
      intro j hj hlt
      have hj0 : j = 0 := by omega
      subst hj0
      simpa using hf)
    simpa using h

theorem GetRequiredValue_lowest_index_wins_witness :
    GetRequiredValue
        (New [WithInMemoryGetter [("SOME_CONFIG", "SOME_VALUE")], WithEnvironmentVariables])
        "SOME_WANTED_CONFIG"
        ({ environ := [("SOME_WANTED_CONFIG", "SOME_WANTED_VALUE")], heap := () } : World Unit)
      = (("SOME_WANTED_VALUE", none),
          { environ := [("SOME_WANTED_CONFIG", "SOME_WANTED_VALUE")], heap := () }) :=
  (GetRequiredValue_lowest_index_wins
      [WithInMemoryGetter [("SOME_CONFIG", "SOME_VALUE")], WithEnvironmentVariables]
      "SOME_WANTED_CONFIG"
      ({ environ := [("SOME_WANTED_CONFIG", "SOME_WANTED_VALUE")], heap := () } : World Unit)
      (by
        intro p hp
        simp only [List.mem_cons, List.mem_singleton, List.not_mem_nil, or_false] at hp
        rcases hp with rfl | rfl
        · exact WithInMemoryGetter_readOnly _
        · exact WithEnvironmentVariables_readOnly)
      ⟨WithEnvironmentVariables, by simp, by decide⟩).2.2
    _ _ _ rfl (by decide) (by decide)

/-- C2: a manager built with no getters fails `GetRequiredValue` for every key,
with the error "there is no configuration getter configured", which is not the
key-not-found error of that key. -/
theorem GetRequiredValue_no_getters {α : Type} (key : String) (w : World α) :
    GetRequiredValue (New ([] : List (configurationValueGetter α))) key w
        = (("", some "there is no configuration getter configured"), w) ∧
    (GetRequiredValue (New ([] : List (configurationValueGetter α))) key w).1.2 ≠ none ∧
    (GetRequiredValue (New ([] : List (configurationValueGetter α))) key w).1.2
        ≠ some ("key " ++ key ++ " not found") := by
  have h : GetRequiredValue (New ([] : List (configurationValueGetter α))) key w
      = (("", some "there is no configuration getter configured"), w) := by
    simp [GetRequiredValue, New_getters]
  refine ⟨h, ?_, ?_⟩
  · rw [h]
    simp
  · rw [h]
    intro he
    exact keyNotFound_ne_noGetter key (Option.some.inj he).symm

/-- C3: for a manager with at least one getter, all of which only read the world
and fail on the key, `GetRequiredValue` returns the empty value and the error
whose message is exactly "key " ++ key ++ " not found". -/
theorem GetRequiredValue_key_not_found {α : Type}
    (ps : List (configurationValueGetter α)) (key : String) (w : World α)
    (hne : 1 ≤ ps.length)
    (hro : ∀ p ∈ ps, ReadOnly p)
    (hfail : ∀ p ∈ ps, (p key w).1.2 ≠ none) :
    GetRequiredValue (New ps) key w = (("", some ("key " ++ key ++ " not found")), w) := by
  have h0 : ps.length ≠ 0 := by omega
  simp only [GetRequiredValue, New_getters, h0, if_false]
  exact rangeValueGetters_all_fail ps key w hro hfail

theorem GetRequiredValue_key_not_found_witness :
    GetRequiredValue
        (New [WithInMemoryGetter [("CONFIG_KEY", "config value")], WithEnvironmentVariables])
        "YET_SOME_ANOTHER_CONFIG"
        ({ environ := [("SOME_OTHER_KEY", "some other value")], heap := () } : World Unit)
      = (("", some "key YET_SOME_ANOTHER_CONFIG not found"),
          { environ := [("SOME_OTHER_KEY", "some other value")], heap := () }) :=
  GetRequiredValue_key_not_found
    [WithInMemoryGetter [("CONFIG_KEY", "config value")], WithEnvironmentVariables]
    "YET_SOME_ANOTHER_CONFIG"
    ({ environ := [("SOME_OTHER_KEY", "some other value")], heap := () } : World Unit)
    (by decide)
    (by
      intro p hp
      simp only [List.mem_cons, List.mem_singleton, List.not_mem_nil, or_false] at hp
      rcases hp with rfl | rfl
      · exact WithInMemoryGetter_readOnly _
      · exact WithEnvironmentVariables_readOnly)
    (by
      intro p hp
      simp only [List.mem_cons, List.mem_singleton, List.not_mem_nil, or_false] at hp
      rcases hp with rfl | rfl <;> decide)

/-! ## `GetOptionalValue` -/

/-- C4: `GetOptionalValue` is total and returns a plain string: it is the value of
`GetRequiredValue` when that call returns a nil error, and the default when that
call returns any error; the world it leaves is the one `GetRequiredValue` leaves. -/
theorem GetOptionalValue_spec {α : Type} (m : ConfigurationManager α) (key : String)
    (defaultValue : String) (w : World α) :
    (∀ val w', GetRequiredValue m key w = ((val, none), w') →
      GetOptionalValue m key defaultValue w = (val, w')) ∧
    (∀ val err w', GetRequiredValue m key w = ((val, some err), w') →
      GetOptionalValue m key defaultValue w = (defaultValue, w')) ∧
    (GetOptionalValue m key defaultValue w).1 =
      (if (GetRequiredValue m key w).1.2 = none then (GetRequiredValue m key w).1.1
       else defaultValue) ∧
    (GetOptionalValue m key defaultValue w).2 = (GetRequiredValue m key w).2 := by
  unfold GetOptionalValue
  rcases h : GetRequiredValue m key w with ⟨⟨val, err⟩, w'⟩
  cases err with
  | none => simp
  | some e => simp

/-- C5: for a manager built with no getters, `GetOptionalValue` returns the
default, for every key and every default. -/
theorem GetOptionalValue_no_getters {α : Type} (key : String) (defaultValue : String)
    (w : World α) :
    GetOptionalValue (New ([] : List (configurationValueGetter α))) key defaultValue w
      = (defaultValue, w) := by
  simp [GetOptionalValue, GetRequiredValue, New_getters]

/-! ## The built-in getters -/

/-- C6: the getter `WithInMemoryGetter mp` succeeds on a key exactly when the key
is a key of `mp`; on success it returns the value stored under the key, the
empty string included; when the key is absent it returns a non-nil error. -/
theorem WithInMemoryGetter_spec {α : Type} (mp : GoMap) (key : String) (w : World α) :
    ((WithInMemoryGetter mp key w).1.2 = none ↔ key ∈ mp.map Prod.fst) ∧
    (∀ val, mp.lookup key = some val → WithInMemoryGetter mp key w = ((val, none), w)) ∧
    (key ∉ mp.map Prod.fst →
      WithInMemoryGetter mp key w
        = (("", some ("value: " ++ key ++ " does not exists in the map")), w)) ∧
    (∀ rest : GoMap,
      (WithInMemoryGetter ((key, "") :: rest) key w : (String × GoError) × World α)
        = (("", none), w)) := by
  have hsome : ∀ val, mp.lookup key = some val →
      WithInMemoryGetter mp key w = ((val, none), w) := by
    intro val hval
    simp [WithInMemoryGetter, GoMap.index, hval]
  have hnone : key ∉ mp.map Prod.fst →
      WithInMemoryGetter mp key w
        = (("", some ("value: " ++ key ++ " does not exists in the map")), w) := by
    intro hk
    simp [WithInMemoryGetter, GoMap.index_of_not_mem mp key hk]
  refine ⟨⟨?_, ?_⟩, hsome, hnone, ?_⟩
  · intro hs
    by_contra hk
    rw [hnone hk] at hs
    simp at hs
  · intro hk
    obtain ⟨val, hval, _⟩ := GoMap.index_of_mem mp key hk
    rw [hsome val hval]
  · intro rest
    simp [WithInMemoryGetter, GoMap.index]

/-- C7, as stated, fails at the empty key: in an environment that binds the empty
name to "x", the getter still returns an error on the key "". -/
theorem WithEnvironmentVariables_empty_key_fails :
    "" ∈ ([("", "x")] : GoMap).map Prod.fst ∧
    (WithEnvironmentVariables "" ({ environ := [("", "x")], heap := () } : World Unit)).1
      = ("", some "value:  does not exsits in environment variables") ∧
    ¬ ((WithEnvironmentVariables "" ({ environ := [("", "x")], heap := () } : World Unit)).1.2
        = none ↔ "" ∈ ([("", "x")] : GoMap).map Prod.fst) := by
  refine ⟨by decide, by decide, ?_⟩
  intro h
  exact absurd (h.mpr (by decide)) (by decide)

/-- C7, amended: with the process environment a string-to-string map read from the
world of the call, on every non-empty key `WithEnvironmentVariables` succeeds
exactly when the key is set in that environment, the empty string included, and
returns its value there; two calls in worlds that bind the key alike return
alike, and the one getter fails where the key is unset and succeeds where it is
set. -/
theorem WithEnvironmentVariables_spec {α : Type} (key : String) (w : World α)
    (hkey : key ≠ "") :
    ((WithEnvironmentVariables key w).1.2 = none ↔ key ∈ w.environ.map Prod.fst) ∧
    (∀ val, w.environ.lookup key = some val →
      WithEnvironmentVariables key w = ((val, none), w)) ∧
    (key ∉ w.environ.map Prod.fst → (WithEnvironmentVariables key w).1.2 ≠ none) ∧
    (∀ (rest : GoMap) (h : α),
      WithEnvironmentVariables key ({ environ := (key, "") :: rest, heap := h } : World α)
        = (("", none), { environ := (key, "") :: rest, heap := h })) ∧
    (∀ w' : World α, w'.environ.lookup key = w.environ.lookup key →
      (WithEnvironmentVariables key w').1 = (WithEnvironmentVariables key w).1) ∧
    (∀ (val : String) (h : α),
      (WithEnvironmentVariables key ({ environ := [], heap := h } : World α)).1.2 ≠ none ∧
      (WithEnvironmentVariables key ({ environ := [(key, val)], heap := h } : World α)).1
        = (val, none)) := by
  have hlook : ∀ u : World α, LookupEnv u key = u.environ.index key :=
    fun u => LookupEnv_of_ne_empty u key hkey
  have hsome : ∀ val, w.environ.lookup key = some val →
      WithEnvironmentVariables key w = ((val, none), w) := by
    intro val hval
    simp [WithEnvironmentVariables, hlook, GoMap.index, hval]
  have hnone : key ∉ w.environ.map Prod.fst → (WithEnvironmentVariables key w).1.2 ≠ none := by
    intro hk
    simp [WithEnvironmentVariables, hlook, GoMap.index_of_not_mem w.environ key hk]
  refine ⟨⟨?_, ?_⟩, hsome, hnone, ?_, ?_, ?_⟩
  · intro hs
    by_contra hk
    exact hnone hk hs
  · intro hk
    obtain ⟨val, hval, _⟩ := GoMap.index_of_mem w.environ key hk
    rw [hsome val hval]
  · intro rest h
    simp [WithEnvironmentVariables, hlook, GoMap.index]
  · intro w' hw'
    simp only [WithEnvironmentVariables, hlook, GoMap.index, hw']
    cases w.environ.lookup key <;> rfl
  · intro val h
    constructor
    · simp [WithEnvironmentVariables, hlook, GoMap.index]
    · simp [WithEnvironmentVariables, hlook, GoMap.index]

theorem WithEnvironmentVariables_spec_witness :
    WithEnvironmentVariables "EMPTY_BUT_SET"
        ({ environ := [("HOME", "/root"), ("EMPTY_BUT_SET", "")], heap := () } : World Unit)
      = (("", none), { environ := [("HOME", "/root"), ("EMPTY_BUT_SET", "")], heap := () }) :=
  (WithEnvironmentVariables_spec "EMPTY_BUT_SET"
    ({ environ := [("HOME", "/root"), ("EMPTY_BUT_SET", "")], heap := () } : World Unit)
    (by decide)).2.1 "" (by decide)

/-- C8, as stated, fails at the empty key: with the empty name bound to "x" in the
environment and to "y" in the in-memory map, the manager with the environment
getter first returns "y", the value of the map, not "x". -/
theorem GetRequiredValue_order_empty_key :
    ([("", "x")] : GoMap).lookup "" = some "x" ∧
    ([("", "y")] : GoMap).lookup "" = some "y" ∧
    (GetRequiredValue (New [WithEnvironmentVariables, WithInMemoryGetter [("", "y")]]) ""
        ({ environ := [("", "x")], heap := () } : World Unit)).1 = ("y", none) ∧
    (GetRequiredValue (New [WithEnvironmentVariables, WithInMemoryGetter [("", "y")]]) ""
        ({ environ := [("", "x")], heap := () } : World Unit)).1 ≠ ("x", none) := by
  refine ⟨by decide, by decide, by decide, by decide⟩

/-- C8, amended: when the environment and the in-memory map both contain a
non-empty key, the manager with the environment getter first returns the
environment's value, and the manager with the in-memory getter first returns the
map's value. -/
theorem GetRequiredValue_order_decides {α : Type} (E M : GoMap) (key : String) (h : α)
    (e m : String) (hkey : key ≠ "")
    (hE : E.lookup key = some e) (hM : M.lookup key = some m) :
    GetRequiredValue (New [WithEnvironmentVariables, WithInMemoryGetter M]) key
        { environ := E, heap := h } = ((e, none), { environ := E, heap := h }) ∧
    GetRequiredValue (New [WithInMemoryGetter M, WithEnvironmentVariables]) key
        { environ := E, heap := h } = ((m, none), { environ := E, heap := h }) := by
  have hlook : LookupEnv ({ environ := E, heap := h } : World α) key = E.index key :=
    LookupEnv_of_ne_empty _ key hkey
  constructor
  · rw [GetRequiredValue_New_cons, rangeValueGetters_of_success]
    · simp [WithEnvironmentVariables, hlook, GoMap.index, hE]
    · simp [WithEnvironmentVariables, hlook, GoMap.index, hE]
  · rw [GetRequiredValue_New_cons, rangeValueGetters_of_success]
    · simp [WithInMemoryGetter, GoMap.index, hM]
    · simp [WithInMemoryGetter, GoMap.index, hM]

theorem GetRequiredValue_order_decides_witness :
    GetRequiredValue
        (New [WithEnvironmentVariables, WithInMemoryGetter [("SOME_CONFIG", "SOME_VALUE_1")]])
        "SOME_CONFIG"
        ({ environ := [("SOME_CONFIG", "SOME_VALUE_2")], heap := () } : World Unit)
      = (("SOME_VALUE_2", none), { environ := [("SOME_CONFIG", "SOME_VALUE_2")], heap := () }) ∧
    GetRequiredValue
        (New [WithInMemoryGetter [("SOME_CONFIG", "SOME_VALUE_1")], WithEnvironmentVariables])
        "SOME_CONFIG"
        ({ environ := [("SOME_CONFIG", "SOME_VALUE_2")], heap := () } : World Unit)
      = (("SOME_VALUE_1", none), { environ := [("SOME_CONFIG", "SOME_VALUE_2")], heap := () }) :=
  GetRequiredValue_order_decides [("SOME_CONFIG", "SOME_VALUE_2")]
    [("SOME_CONFIG", "SOME_VALUE_1")] "SOME_CONFIG" () "SOME_VALUE_2" "SOME_VALUE_1"
    (by decide) (by decide) (by decide)

/-! ## Short circuit -/

/-- C9: when the getter at position `i` is the first to succeed on the key, among
getters that only read the world, a run in which every getter logs its position
logs exactly the positions `0, ..., i`, each once and in order, and returns what
the plain run returns; and the result is unchanged when the getters after
position `i` are replaced by any others. -/
theorem GetRequiredValue_short_circuit {α : Type}
    (ps : List (configurationValueGetter α)) (key : String) (w : World α)
    (i : Nat) (hi : i < ps.length)
    (hro : ∀ p ∈ ps, ReadOnly p)
    (hsucc : (ps.get ⟨i, hi⟩ key w).1.2 = none)
    (hmin : ∀ j, ∀ hj : j < ps.length, j < i → (ps.get ⟨j, hj⟩ key w).1.2 ≠ none) :
    (GetRequiredValue (New (recordedFrom 0 ps)) key
        { environ := w.environ, heap := (w.heap, []) }).2.heap.2 = List.range (i + 1) ∧
    (GetRequiredValue (New (recordedFrom 0 ps)) key
        { environ := w.environ, heap := (w.heap, []) }).1 = (GetRequiredValue (New ps) key w).1 ∧
    (∀ qs : List (configurationValueGetter α),
      GetRequiredValue (New (ps.take (i + 1) ++ qs)) key w = GetRequiredValue (New ps) key w) := by
  have hne : ps.length ≠ 0 := by omega
  have hsplit := split_at_index ps i hi
  have hpre_ro : ∀ q ∈ ps.take i, ReadOnly q := fun q hq => hro q (List.mem_of_mem_take hq)
  have hpre_fail : ∀ q ∈ ps.take i, (q key w).1.2 ≠ none := by
    intro q hq
    obtain ⟨n, hn⟩ := List.get_of_mem hq
    have hnlt : n.1 < i := by
      have := n.2
      simp only [List.length_take] at this
      omega
    have hnlen : n.1 < ps.length := by omega
    have hget : (ps.take i).get n = ps.get ⟨n.1, hnlen⟩ := by
      simp [List.getElem_take]
    rw [← hn, hget]
    exact hmin n.1 hnlen hnlt
  have hplain : GetRequiredValue (New ps) key w
      = (((ps.get ⟨i, hi⟩ key w).1.1, none), (ps.get ⟨i, hi⟩ key w).2) := by
    have hloop := rangeValueGetters_append_success (ps.take i) (ps.get ⟨i, hi⟩)
      (ps.drop (i + 1)) key w hpre_ro hpre_fail hsucc
    rw [← hsplit] at hloop
    simp only [GetRequiredValue, New_getters, hne, if_false]
    exact hloop
  have hrec := rangeValueGetters_recordedFrom_success (ps.take i) (ps.get ⟨i, hi⟩)
    (ps.drop (i + 1)) key w 0 [] hpre_ro hpre_fail hsucc
  rw [← hsplit] at hrec
  have hlen : (ps.take i).length = i := by
    rw [List.length_take]
    omega
  have hrne : (recordedFrom 0 ps).length ≠ 0 := by
    rw [recordedFrom_length]
    exact hne
  refine ⟨?_, ?_, ?_⟩
  · simp only [GetRequiredValue, New_getters, hrne, if_false]
    rw [hrec.2, hlen, List.nil_append, List.range_eq_range']
  · simp only [GetRequiredValue, New_getters, hrne, if_false]
    rw [hrec.1]
    simp only [GetRequiredValue, New_getters, hne, if_false] at hplain
    simp only [GetRequiredValue, New_getters, hne, if_false]
    rw [hplain]
  · intro qs
    have htake : ps.take (i + 1) ++ qs = ps.take i ++ ps.get ⟨i, hi⟩ :: qs := by
      have hstep : ps.take (i + 1) = ps.take i ++ [ps.get ⟨i, hi⟩] := by
        rw [List.take_succ, List.getElem?_eq_getElem hi]
        rfl
      rw [hstep, List.append_assoc]
      rfl
    have hqne : (ps.take i ++ ps.get ⟨i, hi⟩ :: qs).length ≠ 0 := by simp
    rw [htake, hplain]
    simp only [GetRequiredValue, New_getters, hqne, if_false]
    exact rangeValueGetters_append_success (ps.take i) (ps.get ⟨i, hi⟩) qs key w
      hpre_ro hpre_fail hsucc

theorem GetRequiredValue_short_circuit_witness :
    (GetRequiredValue
        (New (recordedFrom 0
          [WithInMemoryGetter [("A", "1")], WithEnvironmentVariables,
            WithInMemoryGetter [("B", "3")]]))
        "B" ({ environ := [("B", "2")], heap := ((), []) } : World (Unit × List Nat))).2.heap.2
      = [0, 1] :=
  (GetRequiredValue_short_circuit
    [WithInMemoryGetter [("A", "1")], WithEnvironmentVariables, WithInMemoryGetter [("B", "3")]]
    "B" ({ environ := [("B", "2")], heap := () } : World Unit) 1 (by decide)
    (by
      intro p hp
      simp only [List.mem_cons, List.mem_singleton, List.not_mem_nil, or_false] at hp
      rcases hp with rfl | rfl | rfl
      · exact WithInMemoryGetter_readOnly _
      · exact WithEnvironmentVariables_readOnly
      · exact WithInMemoryGetter_readOnly _)
    (by decide)
    (by
      intro j hj hlt
      have hj0 : j = 0 := by omega
      subst hj0
      show ((WithInMemoryGetter [("A", "1")] : configurationValueGetter Unit) "B"
        { environ := [("B", "2")], heap := () }).1.2 ≠ none
      decide)).1

/-! ## Construction -/

/-- C10: `New` stores the getters exactly as given: for every argument list, the
empty one included, the stored sequence has the length of the argument list and
at every position holds the getter given at that position. -/
theorem New_stores_getters {α : Type} (opts : List (configurationValueGetter α)) :
    (New opts).configurationValueGetter.length = opts.length ∧
    (∀ i, ∀ hi : i < opts.length,
      (New opts).configurationValueGetter[i]? = some (opts.get ⟨i, hi⟩)) ∧
    (New opts).configurationValueGetter = opts ∧
    (New ([] : List (configurationValueGetter α))).configurationValueGetter = [] := by
  refine ⟨by rw [New_getters], ?_, New_getters opts, New_getters []⟩
  intro i hi
  rw [New_getters, List.getElem?_eq_getElem hi]
  rfl

/-! ## The custom getter -/

/-- C11: `WithCustomGetter` is the identity on getters: it returns the getter it
is given, so on every key, in every world, it returns the value, the error and
the world that the given getter returns. -/
theorem WithCustomGetter_identity {α : Type} (fnGetter : configurationValueGetter α) :
    WithCustomGetter fnGetter = fnGetter ∧
    (∀ key w, WithCustomGetter fnGetter key w = fnGetter key w) ∧
    (∀ key w, (WithCustomGetter fnGetter key w).1.1 = (fnGetter key w).1.1 ∧
      (WithCustomGetter fnGetter key w).1.2 = (fnGetter key w).1.2) :=
  ⟨rfl, fun _ _ => rfl, fun _ _ => ⟨rfl, rfl⟩⟩

/-! ## The errors of `GetRequiredValue` -/

/-- C12: the two failures of `GetRequiredValue` can always be told apart: for
every key the key-not-found message differs from the no-getter message, a manager
returns the no-getter error exactly when it has no getters, and a manager with
getters that fails returns the key-not-found error of the key. -/
theorem GetRequiredValue_errors_distinct {α : Type} (m : ConfigurationManager α)
    (key : String) (w : World α) :
    "key " ++ key ++ " not found" ≠ "there is no configuration getter configured" ∧
    ((GetRequiredValue m key w).1.2 = some "there is no configuration getter configured"
      ↔ m.configurationValueGetter.length = 0) ∧
    (m.configurationValueGetter.length ≠ 0 → (GetRequiredValue m key w).1.2 ≠ none →
      (GetRequiredValue m key w).1.2 = some ("key " ++ key ++ " not found")) ∧
    ((GetRequiredValue m key w).1.2 = some ("key " ++ key ++ " not found") →
      m.configurationValueGetter.length ≠ 0) := by
  have hne := keyNotFound_ne_noGetter key
  rcases GetRequiredValue_cases m key w with h | ⟨h0, h⟩ | ⟨h0, h⟩
  · refine ⟨hne, ⟨?_, ?_⟩, ?_, ?_⟩
    · intro he
      rw [h] at he
      exact absurd he (by simp)
    · intro h0
      have : (GetRequiredValue m key w).1.2
          = some "there is no configuration getter configured" := by
        simp [GetRequiredValue, h0]
      exact this
    · intro _ hn
      exact absurd h hn
    · intro he
      rw [h] at he
      exact absurd he (by simp)
  · refine ⟨hne, ⟨fun _ => h0, fun _ => by rw [h]⟩, fun hn => absurd h0 hn, ?_⟩
    intro he
    rw [h] at he
    exact absurd (Option.some.inj he).symm hne
  · refine ⟨hne, ⟨?_, fun h0' => absurd h0' h0⟩, fun _ _ => by rw [h], fun _ => h0⟩
    intro he
    rw [h] at he
    exact absurd (Option.some.inj he) hne

/-! ## Determinism -/

/-- C13: for a manager whose getters only read the world, a call of
`GetRequiredValue` or `GetOptionalValue` leaves the world (map contents are
immutable values, the environment is part of the world) as it found it, and a
second call with the same key (and default) after it returns the same result; the
manager is an argument that neither method writes, and both built-in getters only
read the world. -/
theorem GetRequiredValue_deterministic {α : Type} (m : ConfigurationManager α)
    (key : String) (defaultValue : String) (w : World α)
    (hro : ∀ q ∈ m.configurationValueGetter, ReadOnly q) :
    (GetRequiredValue m key w).2 = w ∧
    (GetOptionalValue m key defaultValue w).2 = w ∧
    GetRequiredValue m key (GetRequiredValue m key w).2 = GetRequiredValue m key w ∧
    GetOptionalValue m key defaultValue (GetOptionalValue m key defaultValue w).2
      = GetOptionalValue m key defaultValue w ∧
    GetRequiredValue m key (GetOptionalValue m key defaultValue w).2
      = GetRequiredValue m key w ∧
    GetOptionalValue m key defaultValue (GetRequiredValue m key w).2
      = GetOptionalValue m key defaultValue w ∧
    (∀ mp : GoMap, ReadOnly (WithInMemoryGetter mp : configurationValueGetter α)) ∧
    ReadOnly (WithEnvironmentVariables : configurationValueGetter α) := by
  have hreq : (GetRequiredValue m key w).2 = w := GetRequiredValue_readOnly m key w hro
  have hopt : (GetOptionalValue m key defaultValue w).2 = w := by
    rw [GetOptionalValue_world, hreq]
  refine ⟨hreq, hopt, ?_, ?_, ?_, ?_, WithInMemoryGetter_readOnly,
    WithEnvironmentVariables_readOnly⟩
  · rw [hreq]
  · rw [hopt]
  · rw [hopt]
  · rw [hreq]

theorem GetRequiredValue_deterministic_witness :
    GetRequiredValue
        (New [WithInMemoryGetter [("CONFIG_KEY", "config value")], WithEnvironmentVariables])
        "CONFIG_KEY"
        (GetRequiredValue
          (New [WithInMemoryGetter [("CONFIG_KEY", "config value")], WithEnvironmentVariables])
          "CONFIG_KEY" ({ environ := [("HOME", "/root")], heap := () } : World Unit)).2
      = GetRequiredValue
        (New [WithInMemoryGetter [("CONFIG_KEY", "config value")], WithEnvironmentVariables])
        "CONFIG_KEY" ({ environ := [("HOME", "/root")], heap := () } : World Unit) :=
  (GetRequiredValue_deterministic
    (New [WithInMemoryGetter [("CONFIG_KEY", "config value")], WithEnvironmentVariables])
    "CONFIG_KEY" "fallback" ({ environ := [("HOME", "/root")], heap := () } : World Unit)
    (by
      intro q hq
      rw [New_getters] at hq
      simp only [List.mem_cons, List.mem_singleton, List.not_mem_nil, or_false] at hq
      rcases hq with rfl | rfl
      · exact WithInMemoryGetter_readOnly _
      · exact WithEnvironmentVariables_readOnly)).2.2.1

/-! ## The default of `GetOptionalValue` without getters -/

/-- C14, as stated, fails: a manager built with no getters, asked for "SOME_KEY"
with the default "fallback", returns "fallback" and not the empty string. -/
theorem GetOptionalValue_no_getters_not_always_empty :
    (GetOptionalValue (New ([] : List (configurationValueGetter Unit))) "SOME_KEY" "fallback"
        { environ := [], heap := () }).1 = "fallback" ∧
    ¬ (∀ (key defaultValue : String) (w : World Unit),
        (GetOptionalValue (New ([] : List (configurationValueGetter Unit))) key defaultValue w).1
          = "") := by
  refine ⟨by decide, ?_⟩
  intro h
  exact absurd (h "SOME_KEY" "fallback" { environ := [], heap := () }) (by decide)

/-- C14, amended: a manager built with no getters returns from `GetOptionalValue`
the default it is passed, for every key; so it returns the empty string exactly
when the default passed is the empty string, as in the call with the default "". -/
theorem GetOptionalValue_no_getters_empty_iff {α : Type} (key : String)
    (defaultValue : String) (w : World α) :
    (GetOptionalValue (New ([] : List (configurationValueGetter α))) key defaultValue w).1
      = defaultValue ∧
    ((GetOptionalValue (New ([] : List (configurationValueGetter α))) key defaultValue w).1 = ""
      ↔ defaultValue = "") ∧
    GetOptionalValue (New ([] : List (configurationValueGetter α))) key "" w = ("", w) := by
  have h : ∀ d, GetOptionalValue (New ([] : List (configurationValueGetter α))) key d w
      = (d, w) := by
    intro d
    simp [GetOptionalValue, GetRequiredValue, New_getters]
  refine ⟨by rw [h], ?_, h ""⟩
  rw [h]

/-! ## The value returned with an error -/

/-- C15: whenever `GetRequiredValue` returns a non-nil error, the value it returns
is the empty string, for every manager and key; also when the only getter is a
custom getter that fails while returning a value of its own, which is dropped. -/
theorem GetRequiredValue_error_value_empty {α : Type} (m : ConfigurationManager α)
    (key : String) (w : World α) (herr : (GetRequiredValue m key w).1.2 ≠ none) :
    (GetRequiredValue m key w).1.1 = "" ∧
    (∀ (val msg : String) (w' : World α),
      GetRequiredValue (New [WithCustomGetter (fun _ u => ((val, some msg), u))]) key w'
        = (("", some ("key " ++ key ++ " not found")), w')) := by
  constructor
  · rcases GetRequiredValue_cases m key w with h | ⟨_, h⟩ | ⟨_, h⟩
    · exact absurd h herr
    · rw [h]
    · rw [h]
  · intro val msg w'
    rw [GetRequiredValue_New_cons, rangeValueGetters_of_failure]
    · rfl
    · simp [WithCustomGetter]

theorem GetRequiredValue_error_value_empty_witness :
    (GetRequiredValue
        (New [WithCustomGetter (fun _ u => (("leftover", some "boom"), u)),
          WithInMemoryGetter [("CONFIG_KEY", "config value")]])
        "MISSING_KEY" ({ environ := [], heap := () } : World Unit)).1.1 = "" :=
  (GetRequiredValue_error_value_empty
    (New [WithCustomGetter (fun _ u => (("leftover", some "boom"), u)),
      WithInMemoryGetter [("CONFIG_KEY", "config value")]])
    "MISSING_KEY" ({ environ := [], heap := () } : World Unit) (by decide)).1

/-! ## The empty string as a value -/

/-- C16: an empty-string value counts as found: when the first getter to succeed
on the key, among getters that only read the world, returns the empty string,
`GetRequiredValue` returns the empty string with a nil error and
`GetOptionalValue` returns the empty string for every default; so it is for an
in-memory map that binds the key to "", whatever getters follow it. -/
theorem GetRequiredValue_empty_string_found {α : Type}
    (ps : List (configurationValueGetter α)) (key : String) (w : World α)
    (i : Nat) (hi : i < ps.length)
    (hro : ∀ p ∈ ps, ReadOnly p)
    (hsucc : (ps.get ⟨i, hi⟩ key w).1 = ("", none))
    (hmin : ∀ j, ∀ hj : j < ps.length, j < i → (ps.get ⟨j, hj⟩ key w).1.2 ≠ none) :
    GetRequiredValue (New ps) key w = (("", none), w) ∧
    (∀ defaultValue, GetOptionalValue (New ps) key defaultValue w = ("", w)) ∧
    (∀ (rest : GoMap) (later : List (configurationValueGetter α)) (defaultValue : String),
      GetRequiredValue (New (WithInMemoryGetter ((key, "") :: rest) :: later)) key w
        = (("", none), w) ∧
      GetOptionalValue (New (WithInMemoryGetter ((key, "") :: rest) :: later)) key
        defaultValue w = ("", w)) := by
  have hreq : GetRequiredValue (New ps) key w = (("", none), w) := by
    have h := GetRequiredValue_of_lowest ps key w i hi hro (by rw [hsucc]) hmin
    rw [hsucc] at h
    exact h
  have hmem : ∀ (rest : GoMap) (later : List (configurationValueGetter α)),
      GetRequiredValue (New (WithInMemoryGetter ((key, "") :: rest) :: later)) key w
        = (("", none), w) := by
    intro rest later
    rw [GetRequiredValue_New_cons, rangeValueGetters_of_success]
    · simp [WithInMemoryGetter, GoMap.index]
    · simp [WithInMemoryGetter, GoMap.index]
  refine ⟨hreq, ?_, ?_⟩
  · intro defaultValue
    simp [GetOptionalValue, hreq]
  · intro rest later defaultValue
    refine ⟨hmem rest later, ?_⟩
    simp [GetOptionalValue, hmem rest later]

theorem GetRequiredValue_empty_string_found_witness :
    GetOptionalValue
        (New [WithEnvironmentVariables, WithInMemoryGetter [("K", "")],
          WithInMemoryGetter [("K", "later value")]])
        "K" "fallback" ({ environ := [], heap := () } : World Unit)
      = ("", { environ := [], heap := () }) :=
  (GetRequiredValue_empty_string_found
    [WithEnvironmentVariables, WithInMemoryGetter [("K", "")],
      WithInMemoryGetter [("K", "later value")]]
    "K" ({ environ := [], heap := () } : World Unit) 1 (by decide)
    (by
      intro p hp
      simp only [List.mem_cons, List.mem_singleton, List.not_mem_nil, or_false] at hp
      rcases hp with rfl | rfl | rfl
      · exact WithEnvironmentVariables_readOnly
      · exact WithInMemoryGetter_readOnly _
      · exact WithInMemoryGetter_readOnly _)
    (by decide)
    (by
      intro j hj hlt
      have hj0 : j = 0 := by omega
      subst hj0
      show ((WithEnvironmentVariables : configurationValueGetter Unit) "K"
        { environ := [], heap := () }).1.2 ≠ none
      decide)).2.1 "fallback"

/-! ## The errors of the getters -/

/-- C17: the errors of the getters are never passed on: two managers with
getters that both fail on the key return the same value and error, the
key-not-found error of the key; in particular so do any two non-empty sequences of
read-only getters that all fail on the key, whatever errors those getters
returned. -/
theorem GetRequiredValue_error_independent {α : Type}
    (ps qs : List (configurationValueGetter α)) (key : String) (w w' : World α)
    (hps : 1 ≤ ps.length) (hqs : 1 ≤ qs.length) :
    ((GetRequiredValue (New ps) key w).1.2 ≠ none →
      (GetRequiredValue (New qs) key w').1.2 ≠ none →
      (GetRequiredValue (New ps) key w).1 = (GetRequiredValue (New qs) key w').1 ∧
      (GetRequiredValue (New ps) key w).1 = ("", some ("key " ++ key ++ " not found"))) ∧
    ((∀ p ∈ ps, ReadOnly p) → (∀ p ∈ ps, (p key w).1.2 ≠ none) →
      (∀ q ∈ qs, ReadOnly q) → (∀ q ∈ qs, (q key w').1.2 ≠ none) →
      (GetRequiredValue (New ps) key w).1 = (GetRequiredValue (New qs) key w').1 ∧
      (GetRequiredValue (New ps) key w).1.2 = some ("key " ++ key ++ " not found")) := by
  have hfailed : ∀ (rs : List (configurationValueGetter α)) (u : World α), 1 ≤ rs.length →
      (GetRequiredValue (New rs) key u).1.2 ≠ none →
      (GetRequiredValue (New rs) key u).1 = ("", some ("key " ++ key ++ " not found")) := by
    intro rs u hrs herr
    rcases GetRequiredValue_cases (New rs) key u with h | ⟨h0, _⟩ | ⟨_, h⟩
    · exact absurd h herr
    · rw [New_getters] at h0
      omega
    · exact h
  have hall : ∀ (rs : List (configurationValueGetter α)) (u : World α), 1 ≤ rs.length →
      (∀ p ∈ rs, ReadOnly p) → (∀ p ∈ rs, (p key u).1.2 ≠ none) →
      GetRequiredValue (New rs) key u = (("", some ("key " ++ key ++ " not found")), u) := by
    intro rs u hrs hro hfail
    have h0 : rs.length ≠ 0 := by omega
    simp only [GetRequiredValue, New_getters, h0, if_false]
    exact rangeValueGetters_all_fail rs key u hro hfail
  constructor
  · intro hp hq
    rw [hfailed ps w hps hp, hfailed qs w' hqs hq]
    exact ⟨rfl, rfl⟩
  · intro hrp hfp hrq hfq
    rw [hall ps w hps hrp hfp, hall qs w' hqs hrq hfq]
    exact ⟨rfl, rfl⟩

theorem GetRequiredValue_error_independent_witness :
    (GetRequiredValue
        (New [WithCustomGetter (fun _ u => (("", some "first failure"), u))])
        "CONFIG_KEY" ({ environ := [], heap := () } : World Unit)).1
      = (GetRequiredValue
          (New [WithInMemoryGetter [("OTHER", "x")],
            WithCustomGetter (fun _ u => (("", some "second failure"), u))])
          "CONFIG_KEY" ({ environ := [("OTHER", "y")], heap := () } : World Unit)).1 :=
  ((GetRequiredValue_error_independent
    [WithCustomGetter (fun _ u => (("", some "first failure"), u))]
    [WithInMemoryGetter [("OTHER", "x")],
      WithCustomGetter (fun _ u => (("", some "second failure"), u))]
    "CONFIG_KEY" ({ environ := [], heap := () } : World Unit)
    ({ environ := [("OTHER", "y")], heap := () } : World Unit)
    (by decide) (by decide)).2
    (by
      intro p hp
      simp only [List.mem_singleton] at hp
      subst hp
      intro key u
      rfl)
    (by
      intro p hp
      simp only [List.mem_singleton] at hp
      subst hp
      simp [WithCustomGetter])
    (by
      intro q hq
      simp only [List.mem_cons, List.mem_singleton, List.not_mem_nil, or_false] at hq
      rcases hq with rfl | rfl
      · exact WithInMemoryGetter_readOnly _
      · intro key u
        rfl)
    (by
      intro q hq
      simp only [List.mem_cons, List.mem_singleton, List.not_mem_nil, or_false] at hq
      rcases hq with rfl | rfl
      · decide
      · simp [WithCustomGetter])).1

end configuration
